import Mathlib

/-!
The s3tp server: an SFTP front end over an S3 object store

A shallow embedding of `request-s3.go` and of the password callback of
`main.go`, followed by theorems about the embedded functions.

Conventions of the embedding

* A Go `string` that the code treats as text (paths, keys, prefixes) is a
  `GoString`, a list of Unicode code points.  Every valid UTF-8 Go string is
  such a list; `strings.Split`, `strings.TrimSpace`, `strings.TrimPrefix`,
  `strings.TrimSuffix`, `strings.Join` and the `<` used by `sort.StringSlice`
  act on it as they act on the UTF-8 bytes (UTF-8 preserves code point order).
* A Go `string` of `main.go` (user name, password, extension value) is its
  byte sequence, since the code takes its `len` and converts `[]byte` to it.
* A Go run-time panic is the `Except.error` of `Except Panic`.
* A Go result pair `(*T, error)` is a pair `Option T × Option error`; `none`
  is `nil`.
* The S3 client is a record of functions: one snapshot of the store's answers.
  `storeOf` is one such client, computed from a map of objects; it serves as
  the concrete store of the examples.
-/

namespace S3tp

/-! ## Go strings and the `strings` functions the code calls -/

/-- A Go string used as text: its sequence of code points. -/
abbrev GoString := List Char

/-- The Go run-time panics the embedded code can raise. -/
inductive Panic where
  | indexOutOfRange
  | sliceBoundsOutOfRange
  | nilDereference
  deriving DecidableEq, Repr

/-- The Go `error` values that occur: `io.EOF`, the error of `Filecmd`, the
rejection of the password callback (carrying the user name it quotes), and
an error reported by the store client, identified by a code. -/
inductive error where
  | EOF
  | foobar
  | authRejected (user : List UInt8)
  | store (code : Nat)
  deriving DecidableEq, Repr

/-- Equality of results of possibly panicking code is decidable. -/
instance instDecidableEqExcept {ε α : Type} [DecidableEq ε] [DecidableEq α] :
    DecidableEq (Except ε α)
  | .ok a, .ok b => if h : a = b then isTrue (by rw [h]) else isFalse (by intro h2; cases h2; exact h rfl)
  | .error a, .error b => if h : a = b then isTrue (by rw [h]) else isFalse (by intro h2; cases h2; exact h rfl)
  | .ok _, .error _ => isFalse (by intro h; cases h)
  | .error _, .ok _ => isFalse (by intro h; cases h)

/-- The variable `delimiter` of `request-s3.go`. -/
def delimiter : GoString := ['/']

/-- Pieces of `s` between occurrences of the one-character separator `c`. -/
def splitChar (c : Char) : GoString → List GoString
  | [] => [[]]
  | x :: xs =>
    if x = c then [] :: splitChar c xs
    else
      match splitChar c xs with
      | [] => [[x]]
      | h :: t => (x :: h) :: t

/-- Worker of `Split` for a non-empty separator: `skip` counts the characters
of a matched separator still to be passed over, `cur` is the current piece,
reversed. -/
def SplitAux (sep : GoString) : GoString → Nat → GoString → List GoString
  | [], _, cur => [cur.reverse]
  | _ :: cs, k + 1, cur => SplitAux sep cs k cur
  | c :: cs, 0, cur =>
    if sep.isPrefixOf (c :: cs) then cur.reverse :: SplitAux sep cs (sep.length - 1) []
    else SplitAux sep cs 0 (c :: cur)

/-- Go `strings.Split(s, sep)`: the substrings of `s` between the occurrences
of `sep` (found left to right, not overlapping); with an empty `sep` the
string is exploded into its characters. -/
def Split (s sep : GoString) : List GoString :=
  if sep = [] then s.map (fun c => [c]) else SplitAux sep s 0 []

/-- Go `strings.Join(elems, sep)`. -/
def Join (elems : List GoString) (sep : GoString) : GoString :=
  sep.intercalate elems

/-- Go `unicode.IsSpace`. -/
def isSpace (c : Char) : Bool :=
  let n := c.toNat
  n = 0x09 || n = 0x0A || n = 0x0B || n = 0x0C || n = 0x0D || n = 0x20 ||
  n = 0x85 || n = 0xA0 || n = 0x1680 || (0x2000 ≤ n && n ≤ 0x200A) ||
  n = 0x2028 || n = 0x2029 || n = 0x202F || n = 0x205F || n = 0x3000

/-- Go `strings.TrimSpace`: leading and trailing white space removed. -/
def TrimSpace (s : GoString) : GoString :=
  ((s.dropWhile isSpace).reverse.dropWhile isSpace).reverse

/-- Go `strings.TrimPrefix`. -/
def TrimPrefix (s pre : GoString) : GoString :=
  if pre.isPrefixOf s then s.drop pre.length else s

/-- Go `strings.TrimSuffix`. -/
def TrimSuffix (s suf : GoString) : GoString :=
  if suf.isSuffixOf s then s.take (s.length - suf.length) else s

/-- Go `<` on strings, the `Less` of `sort.StringSlice`. -/
def strLess : GoString → GoString → Bool
  | _, [] => false
  | [], _ :: _ => true
  | a :: as, b :: bs =>
    if a.toNat < b.toNat then true
    else if b.toNat < a.toNat then false
    else strLess as bs

/-- Insertion of one string into an ascending list. -/
def insertSorted (x : GoString) : List GoString → List GoString
  | [] => [x]
  | y :: ys => if strLess y x then y :: insertSorted x ys else x :: y :: ys

/-- Go `sort.Sort(sort.StringSlice(xs))`: the ascending arrangement of `xs`. -/
def sortStrings : List GoString → List GoString
  | [] => []
  | x :: xs => insertSorted x (sortStrings xs)

/-! ## Path resolution -/

/-- Source `bucket_parts_from_filepath`.  `list[1]` panics when the split has
fewer than two pieces. -/
def bucket_parts_from_filepath (p : GoString) : Except Panic (GoString × GoString) :=
  let list := Split p delimiter
  match list[1]? with
  | none => Except.error Panic.indexOutOfRange
  | some seg =>
    let bucket := TrimSpace seg
    let path : GoString := if list.length > 2 then Join (list.drop 2) delimiter else []
    Except.ok (bucket, path)

/-! ## Entries and the store client -/

/-- Modelled from the spec: the declaration of the type `s3File` is not under
src/ (only its uses in `request-s3.go` are).  The fields are the ones the
code reads and writes, the ones of the Entry of the data model; a field the
code leaves out of a literal has Go's zero value. -/
structure s3File where
  name : GoString := []
  isdir : Bool := false
  bucket : GoString := []
  key : GoString := []
  content : List UInt8 := []
  symlink : GoString := []
  deriving DecidableEq, Repr

/-- The SDK's `s3.HeadObjectInput`, the fields the code sets. -/
structure HeadObjectInput where
  Bucket : GoString
  Key : GoString
  deriving DecidableEq, Repr

/-- The SDK's `s3.ListObjectsV2Input`, the fields the code sets. -/
structure ListObjectsV2Input where
  Bucket : GoString
  MaxKeys : Int
  Delimiter : GoString
  Prefix : GoString
  deriving DecidableEq, Repr

/-- The SDK's `s3.GetObjectInput`, the fields the code sets. -/
structure GetObjectInput where
  Bucket : GoString
  Key : GoString
  deriving DecidableEq, Repr

/-- The SDK's `s3.ListBucketsOutput`: the names of the buckets. -/
structure ListBucketsOutput where
  Buckets : List GoString := []
  deriving DecidableEq, Repr

/-- The SDK's `s3.ListObjectsV2Output`: the keys of `Contents` and the
prefixes of `CommonPrefixes`. -/
structure ListObjectsV2Output where
  Contents : List GoString := []
  CommonPrefixes : List GoString := []
  deriving DecidableEq, Repr

/-- The SDK's `s3.GetObjectOutput`: the body, `none` when `Body` is nil. -/
structure GetObjectOutput where
  Body : Option (List UInt8) := none
  deriving DecidableEq, Repr

/-- The store client `*s3.S3` as the code uses it: what each call returns,
output value and error.  The SDK returns an allocated output value with every
call, also next to an error.  The output of `HeadObject` is discarded by the
code, so only its error is kept. -/
structure S3 where
  HeadObject : HeadObjectInput → Option error
  ListBuckets : ListBucketsOutput × Option error
  ListObjectsV2 : ListObjectsV2Input → ListObjectsV2Output × Option error
  GetObject : GetObjectInput → GetObjectOutput × Option error

/-- Source type `s3fs`. -/
structure s3fs where
  S3 : S3tp.S3
  accessKey : List UInt8 := []
  secretKey : List UInt8 := []

/-- The dispatcher's `sftp.Request`, the fields the code reads. -/
structure Request where
  Method : String
  Filepath : GoString

/-- A Go `map[string]*s3File`: an association list with distinct keys. -/
abbrev FileMap := List (GoString × s3File)

/-- The map assignment `m[k] = v`. -/
def mapSet (m : FileMap) (k : GoString) (v : s3File) : FileMap :=
  (k, v) :: m.filter (fun kv => !(kv.1 == k))

/-- Source type `s3listerat`, a slice of `os.FileInfo` values of type `α`. -/
abbrev s3listerat (α : Type) := List α

/-- Go builtin `copy(dst, src)`: the destination after the copy and the
number of elements copied. -/
def copy {α : Type} (dst src : List α) : List α × Nat :=
  let n := min dst.length src.length
  (src.take n ++ dst.drop n, n)

/-- Source `s3listerat.ListAt`: the buffer after the call, `n` and the error.
The slice expression `f[offset:]` panics for a negative offset. -/
def s3listerat.ListAt {α : Type} (f : s3listerat α) (ls : List α) (offset : Int) :
    Except Panic (List α × Nat × Option error) :=
  if offset ≥ (f.length : Int) then Except.ok (ls, 0, some error.EOF)
  else if offset < 0 then Except.error Panic.sliceBoundsOutOfRange
  else
    let (ls1, n) := copy ls (f.drop offset.toNat)
    if n < ls.length then Except.ok (ls1, n, some error.EOF)
    else Except.ok (ls1, n, none)

/-! ## The handlers of `request-s3.go` -/

/-- Source `s3fs.files_for_path`.  The error of either list call is discarded
and the loops run over the output value. -/
def s3fs.files_for_path (fs : s3fs) (p : GoString) : Except Panic FileMap :=
  let files : FileMap := []
  if p = ['/'] then
    let bucket_results := fs.S3.ListBuckets.1
    Except.ok (bucket_results.Buckets.foldl
      (fun files bucket => mapSet files bucket { name := bucket, isdir := true }) files)
  else
    match bucket_parts_from_filepath p with
    | Except.error e => Except.error e
    | Except.ok (bucket, pfx0) =>
      let pfx : GoString := if pfx0 ≠ [] then pfx0 ++ ['/'] else pfx0
      let input : ListObjectsV2Input :=
        { Bucket := bucket, MaxKeys := 1000, Delimiter := delimiter, Prefix := pfx }
      let result := (fs.S3.ListObjectsV2 input).1
      let files := result.Contents.foldl
        (fun files f =>
          if f = pfx then files
          else mapSet files f { name := TrimPrefix f pfx, bucket := bucket, key := f }) files
      let files := result.CommonPrefixes.foldl
        (fun files f =>
          let path := TrimPrefix f pfx
          let dir := TrimSuffix path delimiter
          mapSet files f { name := dir, bucket := bucket, isdir := true }) files
      Except.ok files

/-- Source `s3fs.file_for_path`. -/
def s3fs.file_for_path (fs : s3fs) (p : GoString) :
    Except Panic (Option s3File × Option error) :=
  match bucket_parts_from_filepath p with
  | Except.error e => Except.error e
  | Except.ok (bucket, key) =>
    let input : HeadObjectInput := { Bucket := bucket, Key := key }
    match fs.S3.HeadObject input with
    | some err =>
      match fs.files_for_path p with
      | Except.error e => Except.error e
      | Except.ok files =>
        if files.length > 0 then Except.ok (some { name := p, isdir := true }, none)
        else Except.ok (none, some err)
    | none => Except.ok (some { name := p, isdir := false, key := p }, none)

/-- Source `s3fs.Filelist`.  The elements of the listing are `*s3File`
pointers, `none` being nil. -/
def s3fs.Filelist (fs : s3fs) (r : Request) :
    Except Panic (Option (s3listerat (Option s3File)) × Option error) :=
  if r.Method = "List" then
    match fs.files_for_path r.Filepath with
    | Except.error e => Except.error e
    | Except.ok files =>
      let ordered_names := files.map Prod.fst
      let ordered_names := sortStrings ordered_names
      let list := ordered_names.map (fun fn => files.lookup fn)
      Except.ok (some list, none)
  else if r.Method = "Stat" then
    match fs.file_for_path r.Filepath with
    | Except.error e => Except.error e
    | Except.ok (file, err) =>
      if err ≠ none then Except.ok (none, err)
      else Except.ok (some [file], none)
  else Except.ok (none, none)

/-- Source `s3fs.fetch`.  The error of `GetObject` is overwritten and never
read; `buffer.ReadFrom` on a nil body is a nil dereference. -/
def s3fs.fetch (fs : s3fs) (filepath : GoString) :
    Except Panic (Option s3File × Option error) :=
  if filepath = ['/'] then Except.ok (none, none)
  else
    match fs.file_for_path filepath with
    | Except.error e => Except.error e
    | Except.ok (file, err) =>
      if err ≠ none then Except.ok (none, err)
      else
        match file with
        | none => Except.error Panic.nilDereference
        | some file =>
          let input : GetObjectInput := { Bucket := file.bucket, Key := file.key }
          let result := (fs.S3.GetObject input).1
          match result.Body with
          | none => Except.error Panic.nilDereference
          | some body => Except.ok (some { file with content := body }, none)

/-- Modelled from the spec: the method `s3File.ReaderAt` is not under src/.
The spec has the reader expose random-access reads over the buffered object
body; the byte source is represented by the bytes it serves. -/
def s3File.ReaderAt (f : s3File) : Option (List UInt8) × Option error :=
  (some f.content, none)

/-- Source `s3fs.Fileread`.  Reading `file.symlink` of a nil entry is a nil
dereference. -/
def s3fs.Fileread (fs : s3fs) (r : Request) :
    Except Panic (Option (List UInt8) × Option error) :=
  match fs.fetch r.Filepath with
  | Except.error e => Except.error e
  | Except.ok (file, err) =>
    if err ≠ none then Except.ok (none, err)
    else
      match file with
      | none => Except.error Panic.nilDereference
      | some file =>
        if file.symlink ≠ [] then
          match fs.fetch file.symlink with
          | Except.error e => Except.error e
          | Except.ok (file2, err2) =>
            if err2 ≠ none then Except.ok (none, err2)
            else
              match file2 with
              | none => Except.error Panic.nilDereference
              | some file2 => Except.ok file2.ReaderAt
        else Except.ok file.ReaderAt

/-- Source `s3fs.Filecmd`. -/
def s3fs.Filecmd (_fs : s3fs) (_r : Request) : Option error :=
  some error.foobar

/-- Source `s3fs.Filewrite`, up to the entry it builds.  The methods
`OpenStreamingWriter` and `WriterAt` of that entry are not under src/; the
sink returned is bound to this entry. -/
def s3fs.Filewrite (_fs : s3fs) (r : Request) : Except Panic s3File :=
  match bucket_parts_from_filepath r.Filepath with
  | Except.error e => Except.error e
  | Except.ok (bucket, key) =>
    Except.ok { name := r.Filepath, isdir := false, key := key, bucket := bucket }

/-! ## The password callback of `main.go` -/

/-- The `ssh.Permissions` value, its `Extensions` map as an association list.
Keys are the two constant names; values are Go strings as byte sequences. -/
structure Permissions where
  Extensions : List (String × List UInt8)
  deriving DecidableEq, Repr

/-- Source `PasswordCallback` of the server configuration in `main`, on the
user name `c.User()` and the password, both as byte sequences (Go `len` of a
string is its number of bytes; `string(pass)` keeps the bytes of `pass`).
The debug print is left out. -/
def PasswordCallback (user : List UInt8) (pass : List UInt8) :
    Option Permissions × Option error :=
  if user.length ≠ 20 then (none, some (error.authRejected user))
  else (some { Extensions := [("ACCESS_KEY_ID", user), ("SECRET_KEY_ID", pass)] }, none)

/-- The UTF-8 encoding of one code point. -/
def utf8Encode (c : Char) : List UInt8 :=
  let n := c.toNat
  if n < 0x80 then [UInt8.ofNat n]
  else if n < 0x800 then [UInt8.ofNat (0xC0 + n / 64), UInt8.ofNat (0x80 + n % 64)]
  else if n < 0x10000 then
    [UInt8.ofNat (0xE0 + n / 4096), UInt8.ofNat (0x80 + n / 64 % 64),
     UInt8.ofNat (0x80 + n % 64)]
  else
    [UInt8.ofNat (0xF0 + n / 262144), UInt8.ofNat (0x80 + n / 4096 % 64),
     UInt8.ofNat (0x80 + n / 64 % 64), UInt8.ofNat (0x80 + n % 64)]

/-- The bytes of the Go string that holds a text: the UTF-8 encoding of its
characters, as the SSH transport delivers a user name. -/
def utf8Bytes : GoString → List UInt8
  | [] => []
  | c :: cs => utf8Encode c ++ utf8Bytes cs

/-! ## A store backed by a map of objects -/

/-- A store state: content by (bucket, key). -/
abbrev Objects := List ((GoString × GoString) × List UInt8)

/-- Writing `c` at `(bucket, key)`, replacing what was there. -/
def Objects.put (objs : Objects) (bucket key : GoString) (c : List UInt8) : Objects :=
  ((bucket, key), c) :: objs.filter (fun o => !(o.1 == (bucket, key)))

/-- Modelled from the spec: the upload methods of `s3File` are not under
src/.  Per the spec the sink of a write commits the accumulated content as a
single object at the (bucket, key) of its entry when it is closed. -/
def commit (objs : Objects) (file : s3File) (c : List UInt8) : Objects :=
  objs.put file.bucket file.key c

/-- The error a map-backed store answers for a missing object. -/
def notFound : error := error.store 404

/-- The listing a store answers for a bucket, a key and the query
`(pfx, delim)`: the key itself, or the common prefix that groups it. -/
def listingOf (pfx delim key : GoString) : Option (Sum GoString GoString) :=
  if pfx.isPrefixOf key then
    let rest := key.drop pfx.length
    let pieces := Split rest delim
    if delim ≠ [] ∧ pieces.length > 1 then some (Sum.inr (pfx ++ pieces.headD [] ++ delim))
    else some (Sum.inl key)
  else none

/-- The S3 client over a store state. -/
def storeOf (objs : Objects) : S3 where
  HeadObject := fun i =>
    if (objs.lookup (i.Bucket, i.Key)).isSome then none else some notFound
  ListBuckets := ({ Buckets := (objs.map (fun o => o.1.1)).eraseDups }, none)
  ListObjectsV2 := fun i =>
    let hits := (objs.filter (fun o => o.1.1 == i.Bucket)).filterMap
      (fun o => listingOf i.Prefix i.Delimiter o.1.2)
    ({ Contents := hits.filterMap (fun h => h.getLeft?),
       CommonPrefixes := (hits.filterMap (fun h => h.getRight?)).eraseDups }, none)
  GetObject := fun i =>
    match objs.lookup (i.Bucket, i.Key) with
    | some c => ({ Body := some c }, none)
    | none => ({ Body := none }, some notFound)

/-! ## Names for the pieces of `files_for_path` -/

/-- The prefix `files_for_path` queries with, from the remainder of the path. -/
def queryPrefix (remainder : GoString) : GoString :=
  if remainder ≠ [] then remainder ++ ['/'] else remainder

/-- The query `files_for_path` sends for a bucket and a remainder. -/
def queryOf (bucket remainder : GoString) : ListObjectsV2Input :=
  { Bucket := bucket, MaxKeys := 1000, Delimiter := delimiter, Prefix := queryPrefix remainder }

/-- The map the two loops of `files_for_path` build from a response. -/
def filesOf (bucket pfx : GoString) (result : ListObjectsV2Output) : FileMap :=
  result.CommonPrefixes.foldl
    (fun files f =>
      mapSet files f { name := TrimSuffix (TrimPrefix f pfx) delimiter, bucket := bucket,
                       isdir := true })
    (result.Contents.foldl
      (fun files f =>
        if f = pfx then files
        else mapSet files f { name := TrimPrefix f pfx, bucket := bucket, key := f }) [])

/-- The map the loop of `files_for_path` builds at the root. -/
def filesRoot (buckets : List GoString) : FileMap :=
  buckets.foldl (fun files bucket => mapSet files bucket { name := bucket, isdir := true }) []

/-- Objects 1, 2 and b/3 in bucket a. -/
def objsA : Objects :=
  [(("a".toList, "1".toList), [49]), (("a".toList, "2".toList), [50]),
   (("a".toList, "b/3".toList), [51])]

/-- The store after the sink of a write to "/a/k" has committed the two
bytes "hi": the entry is the one `Filewrite` builds for that path. -/
def objsK : Objects :=
  commit [] { name := "/a/k".toList, isdir := false, key := "k".toList, bucket := "a".toList }
    [104, 105]

/-- Objects d/ (a marker for the prefix itself), d/1, d/2 and d/b/3 in
bucket a. -/
def objsD : Objects :=
  [(("a".toList, "d/".toList), []), (("a".toList, "d/1".toList), [49]),
   (("a".toList, "d/2".toList), [50]), (("a".toList, "d/b/3".toList), [51])]

/-- Objects b.txt and b/3 in bucket a. -/
def objsB : Objects :=
  [(("a".toList, "b.txt".toList), [1]), (("a".toList, "b/3".toList), [2])]

/-! ## A client that pages through a listing -/

/-- A client of `ListAt`: call number `k` passes the buffer `bufs k`; the
elements received are appended to `acc`, the offset advances by `n`, and the
loop ends at `io.EOF`.  The result is `none` when the calls allowed by the
first argument are used up, or on a panic. -/
def readChunks {α : Type} (f : s3listerat α) (bufs : Nat → List α) :
    Nat → Nat → Int → List α → Option (List α)
  | 0, _, _, _ => none
  | fuel + 1, k, offset, acc =>
    match f.ListAt (bufs k) offset with
    | Except.error _ => none
    | Except.ok (ls1, n, err) =>
      if err = some error.EOF then some (acc ++ ls1.take n)
      else readChunks f bufs fuel (k + 1) (offset + (n : Int)) (acc ++ ls1.take n)

/-! ## Lemmas on splitting and joining -/

theorem splitChar_ne_nil (c : Char) (s : GoString) : splitChar c s ≠ [] := by
  cases s with
  | nil => simp [splitChar]
  | cons x xs =>
    unfold splitChar
    split
    · simp
    · split <;> simp

theorem splitChar_shape (c : Char) (s : GoString) :
    ∃ h t, splitChar c s = h :: t := by
  cases hs : splitChar c s with
  | nil => exact absurd hs (splitChar_ne_nil c s)
  | cons h t => exact ⟨h, t, rfl⟩

theorem SplitAux_single (c : Char) (s cur : GoString) :
    SplitAux [c] s 0 cur
      = (cur.reverse ++ (splitChar c s).headD []) :: (splitChar c s).tail := by
  induction s generalizing cur with
  | nil => simp [SplitAux, splitChar]
  | cons x xs ih =>
    obtain ⟨h, t, ht⟩ := splitChar_shape c xs
    by_cases hx : x = c
    · subst hx
      simp [SplitAux, splitChar, ih, ht, List.isPrefixOf]
    · have hx2 : ¬ c = x := fun e => hx e.symm
      simp [SplitAux, splitChar, ih, ht, List.isPrefixOf, hx, hx2]

theorem Split_delimiter (s : GoString) : Split s delimiter = splitChar '/' s := by
  obtain ⟨h, t, ht⟩ := splitChar_shape '/' s
  simp [Split, delimiter, SplitAux_single, ht]

theorem splitChar_append_sep (c : Char) (b r : GoString) (hb : c ∉ b) :
    splitChar c (b ++ c :: r) = b :: splitChar c r := by
  induction b with
  | nil => simp [splitChar]
  | cons x xs ih =>
    have hx : x ≠ c := fun e => hb (by simp [e])
    have hxs : c ∉ xs := fun e => hb (by simp [e])
    simp [splitChar, hx, ih hxs]

theorem splitChar_no_sep (c : Char) (b : GoString) (hb : c ∉ b) :
    splitChar c b = [b] := by
  induction b with
  | nil => simp [splitChar]
  | cons x xs ih =>
    have hx : x ≠ c := fun e => hb (by simp [e])
    have hxs : c ∉ xs := fun e => hb (by simp [e])
    simp [splitChar, hx, ih hxs]

theorem splitChar_length_of_mem (c : Char) (s : GoString) (h : c ∈ s) :
    2 ≤ (splitChar c s).length := by
  induction s with
  | nil => simp at h
  | cons x xs ih =>
    obtain ⟨a, t, hat⟩ := splitChar_shape c xs
    by_cases hx : x = c
    · simp [splitChar, hx, hat]
    · have hxs : c ∈ xs := by
        rcases List.mem_cons.1 h with e | e
        · exact absurd e.symm hx
        · exact e
      have := ih hxs
      simp [splitChar, hx, hat] at this ⊢
      exact this

theorem Join_splitChar (c : Char) (r : GoString) : Join (splitChar c r) [c] = r := by
  induction r with
  | nil => simp [Join, splitChar, List.intercalate]
  | cons x xs ih =>
    obtain ⟨h, t, ht⟩ := splitChar_shape c xs
    rw [ht] at ih
    by_cases hx : x = c
    · subst hx
      simp only [splitChar, if_true, ht]
      simp only [Join, List.intercalate] at ih ⊢
      simp [List.intersperse, ih]
    · simp only [splitChar, hx, if_false, ht]
      simp only [Join, List.intercalate] at ih ⊢
      cases t with
      | nil => simpa [List.intersperse] using ih
      | cons t1 t2 => simpa [List.intersperse] using ih

theorem TrimSpace_id (b : GoString)
    (hl : ∀ c, b.head? = some c → isSpace c = false)
    (ht : ∀ c, b.getLast? = some c → isSpace c = false) : TrimSpace b = b := by
  have h1 : b.dropWhile isSpace = b := by
    cases b with
    | nil => rfl
    | cons x xs => simp [List.dropWhile, hl x rfl]
  have h2 : b.reverse.dropWhile isSpace = b.reverse := by
    cases hr : b.reverse with
    | nil => rfl
    | cons x xs =>
      have : b.getLast? = some x := by
        rw [← List.head?_reverse, hr]; rfl
      simp [List.dropWhile, ht x this]
  simp [TrimSpace, h1, h2]

/-! ## Lemmas on trimming and on encoding -/

theorem TrimPrefix_append (pre rest : GoString) : TrimPrefix (pre ++ rest) pre = rest := by
  have h : pre.isPrefixOf (pre ++ rest) = true :=
    List.isPrefixOf_iff_prefix.2 (List.prefix_append _ _)
  simp [TrimPrefix, h]

theorem TrimPrefix_of_not_prefix (s pre : GoString) (h : ¬ pre <+: s) :
    TrimPrefix s pre = s := by
  have h2 : ¬ pre.isPrefixOf s = true := fun e => h (List.isPrefixOf_iff_prefix.1 e)
  simp [TrimPrefix, h2]

theorem TrimSuffix_append (t suf : GoString) : TrimSuffix (t ++ suf) suf = t := by
  have h : suf.isSuffixOf (t ++ suf) = true :=
    List.isSuffixOf_iff_suffix.2 (List.suffix_append _ _)
  simp [TrimSuffix, h]

theorem TrimSuffix_of_not_suffix (t suf : GoString) (h : ¬ suf <:+ t) :
    TrimSuffix t suf = t := by
  have h2 : ¬ suf.isSuffixOf t = true := fun e => h (List.isSuffixOf_iff_suffix.1 e)
  simp [TrimSuffix, h2]

theorem utf8Bytes_ascii (s : GoString) (h : ∀ c ∈ s, c.toNat < 128) :
    (utf8Bytes s).length = s.length := by
  induction s with
  | nil => rfl
  | cons x xs ih =>
    have hx : x.toNat < 128 := h x (List.mem_cons_self _ _)
    have := ih (fun c hc => h c (List.mem_cons_of_mem _ hc))
    simp [utf8Bytes, utf8Encode, hx, this]

/-! ## Lemmas on the file map -/

theorem lookup_cons_ite (m : FileMap) (a s : GoString) (v : s3File) :
    List.lookup s ((a, v) :: m) = if s = a then some v else List.lookup s m := by
  by_cases h : s = a
  · subst h; simp [List.lookup]
  · have hb : (s == a) = false := beq_eq_false_iff_ne.2 h
    simp [List.lookup, hb, h]

theorem filter_cons_key (m : FileMap) (a k : GoString) (v : s3File) :
    ((a, v) :: m).filter (fun kv => !(kv.1 == k))
      = if a = k then m.filter (fun kv => !(kv.1 == k))
        else (a, v) :: m.filter (fun kv => !(kv.1 == k)) := by
  by_cases h : a = k
  · subst h; simp [List.filter_cons]
  · have hb : (a == k) = false := beq_eq_false_iff_ne.2 h
    simp [List.filter_cons, hb, h]

theorem lookup_filter_ne (m : FileMap) (k s : GoString) (h : s ≠ k) :
    (m.filter (fun kv => !(kv.1 == k))).lookup s = m.lookup s := by
  induction m with
  | nil => rfl
  | cons kv m ih =>
    obtain ⟨a, v⟩ := kv
    rw [filter_cons_key]
    by_cases ha : a = k
    · subst ha
      rw [if_pos rfl, lookup_cons_ite, if_neg h, ih]
    · rw [if_neg ha, lookup_cons_ite, lookup_cons_ite, ih]

theorem lookup_mapSet (m : FileMap) (k s : GoString) (v : s3File) :
    (mapSet m k v).lookup s = if s = k then some v else m.lookup s := by
  unfold mapSet
  rw [lookup_cons_ite]
  by_cases h : s = k
  · simp [h]
  · simp [h, lookup_filter_ne m k s h]

theorem key_not_mem_filter (m : FileMap) (k : GoString) :
    k ∉ (m.filter (fun kv => !(kv.1 == k))).map Prod.fst := by
  intro h
  obtain ⟨kv, hkv, hk⟩ := List.mem_map.1 h
  have := (List.mem_filter.1 hkv).2
  simp [hk] at this

theorem nodup_mapSet (m : FileMap) (k : GoString) (v : s3File)
    (h : (m.map Prod.fst).Nodup) : ((mapSet m k v).map Prod.fst).Nodup := by
  unfold mapSet
  rw [List.map_cons, List.nodup_cons]
  exact ⟨key_not_mem_filter m k, h.sublist ((List.filter_sublist m).map Prod.fst)⟩

theorem lookup_foldl_skip (g : GoString → s3File) (pfx : GoString) (K : List GoString) :
    ∀ (m : FileMap) (s : GoString),
      (K.foldl (fun files f => if f = pfx then files else mapSet files f (g f)) m).lookup s
        = if s ∈ K ∧ s ≠ pfx then some (g s) else m.lookup s := by
  induction K with
  | nil => intro m s; simp
  | cons k K ih =>
    intro m s
    rw [List.foldl_cons, ih]
    by_cases hk : k = pfx
    · by_cases hs : s = pfx
      · simp [hk, hs]
      · have : ¬ s = k := by rw [hk]; exact hs
        simp [hk, hs, this]
    · by_cases hs : s = pfx
      · have hsk : ¬ s = k := by rw [hs]; exact fun e => hk e.symm
        simp only [hk, if_false, lookup_mapSet, hsk]
        simp [hs]
      · by_cases hsK : s ∈ K
        · simp [hk, hs, hsK]
        · by_cases hsk : s = k
          · subst hsk
            simp [hk, hsK, lookup_mapSet]
          · simp [hk, hsK, hsk, lookup_mapSet]

theorem lookup_foldl_set (g : GoString → s3File) (P : List GoString) :
    ∀ (m : FileMap) (s : GoString),
      (P.foldl (fun files f => mapSet files f (g f)) m).lookup s
        = if s ∈ P then some (g s) else m.lookup s := by
  induction P with
  | nil => intro m s; simp
  | cons k P ih =>
    intro m s
    rw [List.foldl_cons, ih]
    by_cases hsP : s ∈ P
    · simp [hsP]
    · by_cases hsk : s = k
      · subst hsk
        simp [hsP, lookup_mapSet]
      · simp [hsP, hsk, lookup_mapSet]

theorem nodup_foldl_skip (g : GoString → s3File) (pfx : GoString) (K : List GoString) :
    ∀ (m : FileMap), (m.map Prod.fst).Nodup →
      ((K.foldl (fun files f => if f = pfx then files else mapSet files f (g f)) m).map
        Prod.fst).Nodup := by
  induction K with
  | nil => intro m h; simpa using h
  | cons k K ih =>
    intro m h
    rw [List.foldl_cons]
    apply ih
    by_cases hk : k = pfx
    · simpa [hk] using h
    · simpa [hk] using nodup_mapSet m k (g k) h

theorem nodup_foldl_set (g : GoString → s3File) (P : List GoString) :
    ∀ (m : FileMap), (m.map Prod.fst).Nodup →
      ((P.foldl (fun files f => mapSet files f (g f)) m).map Prod.fst).Nodup := by
  induction P with
  | nil => intro m h; simpa using h
  | cons k P ih =>
    intro m h
    rw [List.foldl_cons]
    exact ih _ (nodup_mapSet m k (g k) h)

theorem mem_iff_lookup (m : FileMap) (h : (m.map Prod.fst).Nodup) (s : GoString)
    (e : s3File) : (s, e) ∈ m ↔ m.lookup s = some e := by
  induction m with
  | nil => simp
  | cons kv m ih =>
    obtain ⟨a, v⟩ := kv
    rw [List.map_cons, List.nodup_cons] at h
    rw [lookup_cons_ite]
    by_cases hs : s = a
    · subst hs
      have hnot : (s, e) ∉ m := fun hm => h.1 (List.mem_map.2 ⟨(s, e), hm, rfl⟩)
      simp [hnot, eq_comm]
    · simp [hs, ih h.2]

theorem mem_keys_iff_lookup (m : FileMap) (s : GoString) :
    s ∈ m.map Prod.fst ↔ ∃ e, m.lookup s = some e := by
  induction m with
  | nil => simp
  | cons kv m ih =>
    obtain ⟨a, v⟩ := kv
    rw [lookup_cons_ite]
    by_cases hs : s = a
    · subst hs
      rw [if_pos rfl]
      exact ⟨fun _ => ⟨v, rfl⟩, fun _ => by rw [List.map_cons]; exact List.mem_cons_self _ _⟩
    · simp only [List.map_cons, List.mem_cons, hs, false_or, ih, if_false]

/-! ## Lemmas on the string order and on sorting -/

theorem char_eq_of_toNat (a b : Char) (h : a.toNat = b.toNat) : a = b := by
  have h2 := congrArg Char.ofNat h
  simpa using h2

theorem strLess_cons (a b : Char) (as bs : GoString) :
    strLess (a :: as) (b :: bs)
      = if a.toNat < b.toNat then true
        else if b.toNat < a.toNat then false else strLess as bs := by
  simp [strLess]

theorem strLess_irrefl (a : GoString) : strLess a a = false := by
  induction a with
  | nil => simp [strLess]
  | cons x xs ih => simp [strLess_cons, ih]

theorem strLess_asymm : ∀ (a b : GoString), strLess a b = true → strLess b a = false := by
  intro a
  induction a with
  | nil => intro b _; cases b <;> simp [strLess]
  | cons x xs ih =>
    intro b h
    cases b with
    | nil => simp [strLess] at h
    | cons y ys =>
      rw [strLess_cons] at h ⊢
      rcases Nat.lt_trichotomy x.toNat y.toNat with hlt | heq | hgt
      · have : ¬ y.toNat < x.toNat := by omega
        simp only [this, hlt, if_false, if_true]
      · have h1 : ¬ x.toNat < y.toNat := by omega
        have h2 : ¬ y.toNat < x.toNat := by omega
        simp only [h1, h2, if_false] at h ⊢
        exact ih ys h
      · have h1 : ¬ x.toNat < y.toNat := by omega
        simp [h1, hgt] at h

theorem strLess_trans : ∀ (a b c : GoString),
    strLess a b = true → strLess b c = true → strLess a c = true := by
  intro a
  induction a with
  | nil =>
    intro b c h1 h2
    cases c with
    | nil => cases b <;> simp [strLess] at h2
    | cons z zs => simp [strLess]
  | cons x xs ih =>
    intro b c h1 h2
    cases b with
    | nil => simp [strLess] at h1
    | cons y ys =>
      cases c with
      | nil => simp [strLess] at h2
      | cons z zs =>
        rw [strLess_cons] at h1 h2 ⊢
        by_cases hxy : x.toNat < y.toNat
        · by_cases hyz : y.toNat < z.toNat
          · have : x.toNat < z.toNat := by omega
            simp [this]
          · by_cases hzy : z.toNat < y.toNat
            · simp [hyz, hzy] at h2
            · have : x.toNat < z.toNat := by omega
              simp [this]
        · by_cases hyx : y.toNat < x.toNat
          · simp [hxy, hyx] at h1
          · simp only [hxy, hyx, if_false] at h1
            by_cases hyz : y.toNat < z.toNat
            · have : x.toNat < z.toNat := by omega
              simp [this]
            · by_cases hzy : z.toNat < y.toNat
              · simp [hyz, hzy] at h2
              · simp only [hyz, hzy, if_false] at h2
                have e1 : ¬ x.toNat < z.toNat := by omega
                have e2 : ¬ z.toNat < x.toNat := by omega
                simp only [e1, e2, if_false]
                exact ih ys zs h1 h2

theorem strLess_total : ∀ (a b : GoString),
    strLess a b = false → strLess b a = false → a = b := by
  intro a
  induction a with
  | nil =>
    intro b h _
    cases b with
    | nil => rfl
    | cons y ys => simp [strLess] at h
  | cons x xs ih =>
    intro b h1 h2
    cases b with
    | nil => simp [strLess] at h2
    | cons y ys =>
      rw [strLess_cons] at h1 h2
      by_cases hxy : x.toNat < y.toNat
      · simp [hxy] at h1
      · by_cases hyx : y.toNat < x.toNat
        · simp [hyx] at h2
        · simp only [hxy, hyx, if_false] at h1 h2
          have hc : x = y := char_eq_of_toNat x y (by omega)
          rw [hc, ih ys h1 h2]

theorem strLess_false_trans (a b c : GoString)
    (h1 : strLess b a = false) (h2 : strLess c b = false) : strLess c a = false := by
  by_cases hab : strLess a b = true
  · by_cases hbc : strLess b c = true
    · exact strLess_asymm a c (strLess_trans a b c hab hbc)
    · have : b = c := strLess_total b c (by simpa using hbc) h2
      rw [← this]; exact h1
  · have : a = b := strLess_total a b (by simpa using hab) h1
    rw [this]; exact h2

theorem insertSorted_perm (x : GoString) (l : List GoString) :
    (insertSorted x l).Perm (x :: l) := by
  induction l with
  | nil => simp [insertSorted]
  | cons y ys ih =>
    unfold insertSorted
    split
    · exact (List.Perm.cons y ih).trans (List.Perm.swap x y ys)
    · exact List.Perm.refl _

theorem sortStrings_perm (l : List GoString) : (sortStrings l).Perm l := by
  induction l with
  | nil => simp [sortStrings]
  | cons x xs ih =>
    unfold sortStrings
    exact (insertSorted_perm x _).trans (List.Perm.cons x ih)

theorem insertSorted_sorted (x : GoString) (l : List GoString)
    (h : l.Pairwise (fun a b => strLess b a = false)) :
    (insertSorted x l).Pairwise (fun a b => strLess b a = false) := by
  induction l with
  | nil => simp [insertSorted]
  | cons y ys ih =>
    rw [List.pairwise_cons] at h
    unfold insertSorted
    split
    · rename_i hyx
      rw [List.pairwise_cons]
      refine ⟨?_, ih h.2⟩
      intro z hz
      rcases List.mem_cons.1 ((insertSorted_perm x ys).mem_iff.1 hz) with e | e
      · rw [e]; exact strLess_asymm y x hyx
      · exact h.1 z e
    · rename_i hyx
      have hyx2 : strLess y x = false := by simpa using hyx
      rw [List.pairwise_cons]
      refine ⟨?_, List.pairwise_cons.2 h⟩
      intro z hz
      rcases List.mem_cons.1 hz with e | e
      · rw [e]; exact hyx2
      · exact strLess_false_trans x y z hyx2 (h.1 z e)

theorem sortStrings_sorted (l : List GoString) :
    (sortStrings l).Pairwise (fun a b => strLess b a = false) := by
  induction l with
  | nil => simp [sortStrings]
  | cons x xs ih =>
    unfold sortStrings
    exact insertSorted_sorted x _ ih

theorem sortStrings_strict (l : List GoString) (h : l.Nodup) :
    (sortStrings l).Pairwise (fun a b => strLess a b = true) := by
  have hnd : (sortStrings l).Nodup := (sortStrings_perm l).nodup_iff.2 h
  refine ((sortStrings_sorted l).and hnd).imp ?_
  intro a b hab
  by_cases hlt : strLess a b = true
  · exact hlt
  · exact absurd (strLess_total a b (by simpa using hlt) hab.1) hab.2

theorem strict_sorted_unique (l1 l2 : List GoString) (hp : l1.Perm l2)
    (h1 : l1.Pairwise (fun a b => strLess a b = true))
    (h2 : l2.Pairwise (fun a b => strLess a b = true)) : l1 = l2 := by
  haveI : IsAntisymm GoString (fun a b => strLess a b = true) :=
    ⟨fun a b hab hba => by rw [strLess_asymm a b hab] at hba; cases hba⟩
  exact List.eq_of_perm_of_sorted hp h1 h2

/-! ## Path resolution: theorems -/

/-- C7. Path resolution inverts path building: for a non-empty bucket `b`
without "/" and without leading or trailing white space and any remainder
`r`, "/" + b + "/" + r resolves to (b, r), "/" + b resolves to (b, ""), and
"/" resolves to ("", ""). -/
theorem bucket_parts_inverts_building (b r : GoString) (_hb : b ≠ [])
    (hs : '/' ∉ b)
    (hl : ∀ c, b.head? = some c → isSpace c = false)
    (ht : ∀ c, b.getLast? = some c → isSpace c = false) :
    bucket_parts_from_filepath ('/' :: (b ++ '/' :: r)) = Except.ok (b, r) ∧
    bucket_parts_from_filepath ('/' :: b) = Except.ok (b, []) ∧
    bucket_parts_from_filepath ['/'] = Except.ok ([], []) := by
  refine ⟨?_, ?_, by decide⟩
  · obtain ⟨h, t, hht⟩ := splitChar_shape '/' r
    have hj := Join_splitChar '/' r
    rw [hht] at hj
    have hsplit : Split ('/' :: (b ++ '/' :: r)) delimiter = [] :: b :: h :: t := by
      rw [Split_delimiter]
      simp [splitChar, splitChar_append_sep '/' b r hs, hht]
    unfold bucket_parts_from_filepath
    rw [hsplit]
    simp [TrimSpace_id b hl ht, delimiter, hj]
  · have hsplit : Split ('/' :: b) delimiter = [[], b] := by
      rw [Split_delimiter]
      simp [splitChar, splitChar_no_sep '/' b hs]
    simp [bucket_parts_from_filepath, hsplit, TrimSpace_id b hl ht]

/-- Witness of C7 at bucket "logs" and remainder "2017/01/app.log". -/
theorem bucket_parts_inverts_building_witness :
    bucket_parts_from_filepath "/logs/2017/01/app.log".toList
        = Except.ok ("logs".toList, "2017/01/app.log".toList) ∧
    bucket_parts_from_filepath "/logs".toList = Except.ok ("logs".toList, []) ∧
    bucket_parts_from_filepath ['/'] = Except.ok ([], []) :=
  bucket_parts_inverts_building "logs".toList "2017/01/app.log".toList
    (by decide) (by decide) (by decide) (by decide)

/-- C8, counterexample. On the empty string and on a string without "/" the
index `list[1]` is out of range, and the malformed input "a/b" resolves to
the non-empty bucket "b". -/
theorem bucket_parts_fails_without_separator :
    bucket_parts_from_filepath [] = Except.error Panic.indexOutOfRange ∧
    bucket_parts_from_filepath "abc".toList = Except.error Panic.indexOutOfRange ∧
    bucket_parts_from_filepath "a/b".toList = Except.ok ("b".toList, []) := by
  decide

theorem bucket_parts_defined_of_mem (p : GoString) (h : '/' ∈ p) :
    ∃ first second rest, Split p delimiter = first :: second :: rest ∧
      bucket_parts_from_filepath p
        = Except.ok (TrimSpace second, Join rest delimiter) := by
  have hlen := splitChar_length_of_mem '/' p h
  rw [← Split_delimiter] at hlen
  match hsp : Split p delimiter, hlen with
  | first :: second :: rest, _ =>
    refine ⟨first, second, rest, rfl, ?_⟩
    cases rest with
    | nil => simp [bucket_parts_from_filepath, hsp, Join, List.intercalate]
    | cons r1 r2 => simp [bucket_parts_from_filepath, hsp]

/-- C8, amended. On every input that contains a "/" (every path that begins
with "/" is one) the split has a second piece and the function returns a
pair: the bucket is that piece with white space trimmed, the remainder the
later pieces joined by "/". -/
theorem bucket_parts_total_with_separator (p : GoString) (h : '/' ∈ p) :
    ∃ first second rest, Split p delimiter = first :: second :: rest ∧
      bucket_parts_from_filepath p
        = Except.ok (TrimSpace second, Join rest delimiter) :=
  bucket_parts_defined_of_mem p h

/-- Witness of the amended C8 at "/ a /b//c/". -/
theorem bucket_parts_total_with_separator_witness :
    (∃ first second rest, Split "/ a /b//c/".toList delimiter = first :: second :: rest ∧
      bucket_parts_from_filepath "/ a /b//c/".toList
        = Except.ok (TrimSpace second, Join rest delimiter)) ∧
    bucket_parts_from_filepath "/ a /b//c/".toList
      = Except.ok ("a".toList, "b//c/".toList) ∧
    bucket_parts_from_filepath "/ \t/x".toList = Except.ok ([], "x".toList) :=
  ⟨bucket_parts_total_with_separator "/ a /b//c/".toList (by decide), by decide, by decide⟩

/-! ## The password callback: theorem -/

/-- C6, counterexample. The identity of ten characters "é" is 20 bytes long
and is accepted; the identity of twenty characters "é" is 40 bytes long and is
rejected. -/
theorem PasswordCallback_counts_bytes :
    (List.replicate 10 'é').length = 10 ∧
    utf8Bytes (List.replicate 10 'é')
      = [195, 169, 195, 169, 195, 169, 195, 169, 195, 169,
         195, 169, 195, 169, 195, 169, 195, 169, 195, 169] ∧
    PasswordCallback (utf8Bytes (List.replicate 10 'é')) [115]
      = (some { Extensions := [("ACCESS_KEY_ID", utf8Bytes (List.replicate 10 'é')),
                               ("SECRET_KEY_ID", [115])] }, none) ∧
    (List.replicate 20 'é').length = 20 ∧
    (utf8Bytes (List.replicate 20 'é')).length = 40 ∧
    PasswordCallback (utf8Bytes (List.replicate 20 'é')) [115]
      = (none, some (error.authRejected (utf8Bytes (List.replicate 20 'é')))) := by
  decide

/-- C6, amended. Login rule: the callback accepts exactly the identities
whose length in bytes (Go `len` of the user name) is 20; for those it returns
permissions with ACCESS_KEY_ID the identity and SECRET_KEY_ID the secret
unchanged, and for every other byte length, the empty identity included, an
error and no permissions.  For an identity given as text it is the length of
the UTF-8 encoding that counts, which for an identity of ASCII characters is
its number of characters. -/
theorem PasswordCallback_login_rule (user pass : List UInt8) :
    (user.length = 20 →
      PasswordCallback user pass
        = (some { Extensions := [("ACCESS_KEY_ID", user), ("SECRET_KEY_ID", pass)] }, none)) ∧
    (user.length ≠ 20 → ∃ e, PasswordCallback user pass = (none, some e)) ∧
    ((PasswordCallback user pass).2 = none ↔ user.length = 20) ∧
    (((PasswordCallback user pass).1).isSome = true ↔ user.length = 20) ∧
    (PasswordCallback [] pass).1 = none ∧
    (∀ name : GoString,
      ((PasswordCallback (utf8Bytes name) pass).1).isSome = true
        ↔ (utf8Bytes name).length = 20) ∧
    (∀ name : GoString, (∀ c ∈ name, c.toNat < 128) →
      (((PasswordCallback (utf8Bytes name) pass).1).isSome = true ↔ name.length = 20)) := by
  have hsome : ∀ u : List UInt8,
      ((PasswordCallback u pass).1).isSome = true ↔ u.length = 20 := by
    intro u
    by_cases h : u.length = 20 <;> simp [PasswordCallback, h]
  refine ⟨?_, ?_, ?_, hsome user, ?_, fun name => hsome _, ?_⟩
  · intro h
    simp [PasswordCallback, h]
  · intro h
    exact ⟨error.authRejected user, by simp [PasswordCallback, h]⟩
  · by_cases h : user.length = 20 <;> simp [PasswordCallback, h]
  · simp [PasswordCallback]
  · intro name hascii
    rw [hsome, utf8Bytes_ascii name hascii]

/-! ## Paging through a listing: theorems -/

theorem ListAt_of_nat {α : Type} (f ls : List α) (o : Nat) :
    s3listerat.ListAt f ls (o : Int)
      = if f.length ≤ o then Except.ok (ls, 0, some error.EOF)
        else
          let n := min ls.length (f.length - o)
          Except.ok ((f.drop o).take n ++ ls.drop n, n,
            if n < ls.length then some error.EOF else none) := by
  unfold s3listerat.ListAt
  by_cases h : f.length ≤ o
  · have : (o : Int) ≥ (f.length : Int) := by exact_mod_cast h
    simp [h, this]
  · have h1 : ¬ (o : Int) ≥ (f.length : Int) := by
      intro hh; exact h (by exact_mod_cast hh)
    have h2 : ¬ (o : Int) < 0 := by omega
    simp only [h, h1, h2, if_false, copy, Int.toNat_ofNat, List.length_drop]
    split <;> rfl

theorem readChunks_sound {α : Type} (f : List α) (bufs : Nat → List α) :
    ∀ (fuel k o : Nat) (r : List α), o ≤ f.length →
      readChunks f bufs fuel k (o : Int) (f.take o) = some r → r = f := by
  intro fuel
  induction fuel with
  | zero => intro k o r _ h; simp [readChunks] at h
  | succ fuel ih =>
    intro k o r ho h
    unfold readChunks at h
    rw [ListAt_of_nat] at h
    by_cases h1 : f.length ≤ o
    · have : o = f.length := by omega
      subst this
      simp at h
      exact h.symm
    · simp only [h1, if_false] at h
      have hn : min (bufs k).length (f.length - o) ≤ f.length - o := Nat.min_le_right _ _
      have hlen : ((f.drop o).take (min (bufs k).length (f.length - o))).length
          = min (bufs k).length (f.length - o) := by
        simp
      have htake : f.take o ++ (List.take (min (bufs k).length (f.length - o))
            (List.take (min (bufs k).length (f.length - o)) (List.drop o f)
              ++ List.drop (min (bufs k).length (f.length - o)) (bufs k)))
          = f.take (o + min (bufs k).length (f.length - o)) := by
        rw [List.take_append_of_le_length (by rw [hlen]), List.take_take, Nat.min_self,
          List.take_add]
      simp only [htake] at h
      by_cases h2 : min (bufs k).length (f.length - o) < (bufs k).length
      · simp only [h2, if_true] at h
        have h3 : min (bufs k).length (f.length - o) = f.length - o := by omega
        rw [h3] at h
        have h4 : o + (f.length - o) = f.length := by omega
        rw [h4, List.take_length] at h
        exact (Option.some.inj h).symm
      · simp only [h2, if_false] at h
        have hne : ¬ ((none : Option error) = some error.EOF) := by simp
        simp only [hne, if_false] at h
        have hcast : ((o : Int) + ((min (bufs k).length (f.length - o) : Nat) : Int))
            = ((o + min (bufs k).length (f.length - o) : Nat) : Int) := by push_cast; rfl
        rw [hcast] at h
        exact ih (k + 1) (o + min (bufs k).length (f.length - o)) r (by omega) h

theorem readChunks_complete {α : Type} (f : List α) (bufs : Nat → List α)
    (hpos : ∀ k, 0 < (bufs k).length) :
    ∀ (fuel k o : Nat), o ≤ f.length → f.length - o < fuel →
      ∃ r, readChunks f bufs fuel k (o : Int) (f.take o) = some r := by
  intro fuel
  induction fuel with
  | zero => intro k o _ h; omega
  | succ fuel ih =>
    intro k o ho hf
    unfold readChunks
    rw [ListAt_of_nat]
    by_cases h1 : f.length ≤ o
    · simp [h1]
    · simp only [h1, if_false]
      have hlen : ((f.drop o).take (min (bufs k).length (f.length - o))).length
          = min (bufs k).length (f.length - o) := by
        simp
      have htake : f.take o ++ (List.take (min (bufs k).length (f.length - o))
            (List.take (min (bufs k).length (f.length - o)) (List.drop o f)
              ++ List.drop (min (bufs k).length (f.length - o)) (bufs k)))
          = f.take (o + min (bufs k).length (f.length - o)) := by
        rw [List.take_append_of_le_length (by rw [hlen]), List.take_take, Nat.min_self,
          List.take_add]
      simp only [htake]
      by_cases h2 : min (bufs k).length (f.length - o) < (bufs k).length
      · simp [h2]
      · simp only [h2, if_false]
        have hne : ¬ ((none : Option error) = some error.EOF) := by simp
        simp only [hne, if_false]
        have hcast : ((o : Int) + ((min (bufs k).length (f.length - o) : Nat) : Int))
            = ((o + min (bufs k).length (f.length - o) : Nat) : Int) := by push_cast; rfl
        rw [hcast]
        have hp := hpos k
        exact ih (k + 1) (o + min (bufs k).length (f.length - o)) (by omega) (by omega)

/-- C10. ListAt paging: for a non-negative offset the call returns
n = min(len(ls), len(f) - offset) when offset < len(f) and n = 0 otherwise;
afterwards ls[i] = f[offset + i] for i < n and the other slots are unchanged;
the error is io.EOF exactly when offset >= len(f) or n < len(ls), and nil
otherwise.  A client reading from offset 0 with non-empty buffers, advancing
by n until io.EOF, reaches io.EOF within len(f) + 1 calls and has then
received exactly f, in order; with any buffers, whenever it reaches io.EOF
it has received exactly f. -/
theorem ListAt_paging {α : Type} (f ls : List α) (offset : Int) (h0 : 0 ≤ offset) :
    ∃ ls1 n err, s3listerat.ListAt f ls offset = Except.ok (ls1, n, err) ∧
      (offset < (f.length : Int) → n = min ls.length (f.length - offset.toNat)) ∧
      ((f.length : Int) ≤ offset → n = 0) ∧
      ls1.length = ls.length ∧
      (∀ i, i < n → i < ls.length ∧ offset.toNat + i < f.length ∧
        ls1[i]? = f[offset.toNat + i]?) ∧
      (∀ i, n ≤ i → ls1[i]? = ls[i]?) ∧
      (err = some error.EOF ↔ ((f.length : Int) ≤ offset ∨ n < ls.length)) ∧
      (err = none ↔ ¬ ((f.length : Int) ≤ offset ∨ n < ls.length)) ∧
      (∀ bufs : Nat → List α, (∀ k, 0 < (bufs k).length) →
        readChunks f bufs (f.length + 1) 0 0 [] = some f) ∧
      (∀ (bufs : Nat → List α) (fuel : Nat) (r : List α),
        readChunks f bufs fuel 0 0 [] = some r → r = f) := by
  obtain ⟨o, rfl⟩ := Int.eq_ofNat_of_zero_le h0
  have hsound : ∀ (bufs : Nat → List α) (fuel : Nat) (r : List α),
      readChunks f bufs fuel 0 0 [] = some r → r = f := by
    intro bufs fuel r h
    exact readChunks_sound f bufs fuel 0 0 r (Nat.zero_le _) (by simpa using h)
  have hcomplete : ∀ bufs : Nat → List α, (∀ k, 0 < (bufs k).length) →
      readChunks f bufs (f.length + 1) 0 0 [] = some f := by
    intro bufs hpos
    obtain ⟨r, hr⟩ := readChunks_complete f bufs hpos (f.length + 1) 0 0
      (Nat.zero_le _) (by omega)
    have hr2 : readChunks f bufs (f.length + 1) 0 0 [] = some r := by simpa using hr
    rw [hr2, hsound bufs _ r hr2]
  rw [ListAt_of_nat]
  by_cases h : f.length ≤ o
  · refine ⟨ls, 0, some error.EOF, by simp [h], ?_, ?_, rfl, ?_, ?_, ?_, ?_, hcomplete, hsound⟩
    · intro h1; exfalso; omega
    · intro _; rfl
    · intro i hi; omega
    · intro i _; rfl
    · simp; left; exact_mod_cast h
    · simp; intro h1; exfalso; omega
  · have hn1 : min ls.length (f.length - o) ≤ ls.length := Nat.min_le_left _ _
    have hn2 : min ls.length (f.length - o) ≤ f.length - o := Nat.min_le_right _ _
    have hlen : ((f.drop o).take (min ls.length (f.length - o))).length
        = min ls.length (f.length - o) := by simp
    refine ⟨(f.drop o).take (min ls.length (f.length - o))
        ++ ls.drop (min ls.length (f.length - o)), min ls.length (f.length - o),
      if min ls.length (f.length - o) < ls.length then some error.EOF else none,
      by simp [h], ?_, ?_, ?_, ?_, ?_, ?_, ?_, hcomplete, hsound⟩
    · intro _; simp
    · intro h1; exfalso; omega
    · rw [List.length_append, hlen, List.length_drop]; omega
    · intro i hi
      refine ⟨by omega, by simp only [Int.toNat_ofNat]; omega, ?_⟩
      rw [List.getElem?_append_left (by rw [hlen]; exact hi), List.getElem?_take_of_lt hi,
        List.getElem?_drop]
      simp
    · intro i hi
      rw [List.getElem?_append_right (by rw [hlen]; exact hi), hlen, List.getElem?_drop]
      congr 1
      omega
    · by_cases h2 : min ls.length (f.length - o) < ls.length
      · simp only [h2, if_true, true_iff]; right; trivial
      · simp only [h2, if_false]
        constructor
        · intro h3; cases h3
        · intro h3
          rcases h3 with h3 | h3
          · exfalso; omega
          · exact h3.elim
    · by_cases h2 : min ls.length (f.length - o) < ls.length
      · simp only [h2, if_true]
        constructor
        · intro h3; cases h3
        · intro h3; exact absurd (Or.inr trivial) h3
      · simp only [h2, if_false, true_iff]
        intro h3
        rcases h3 with h3 | h3
        · omega
        · exact h3.elim

/-- Witness of C10: a five-element listing read at offset 3 into a buffer of
three slots gives n = 2 and io.EOF. -/
theorem ListAt_paging_witness :
    ∃ ls1 n err, s3listerat.ListAt [10, 20, 30, 40, 50] [0, 0, 0] 3
        = Except.ok (ls1, n, err) ∧ n = 2 ∧ err = some error.EOF ∧ ls1[2]? = some 0 := by
  obtain ⟨ls1, n, err, h, hn, _, _, _, hrest, herr, _⟩ :=
    ListAt_paging [10, 20, 30, 40, 50] [0, 0, 0] 3 (by decide)
  have hn2 : n = 2 := by simpa using hn (by decide)
  refine ⟨ls1, n, err, h, hn2, ?_, ?_⟩
  · exact herr.2 (Or.inr (by rw [hn2]; decide))
  · rw [hrest 2 (by omega)]; rfl

/-! ## The handlers: lemmas -/

theorem mem_of_head (p : GoString) (h : p.head? = some '/') : '/' ∈ p := by
  cases p with
  | nil => simp at h
  | cons x xs =>
    simp at h
    simp [h]

theorem files_for_path_root (fs : s3fs) :
    fs.files_for_path ['/'] = Except.ok (filesRoot fs.S3.ListBuckets.1.Buckets) := by
  simp [s3fs.files_for_path, filesRoot]

theorem files_for_path_nonroot (fs : s3fs) (p bucket remainder : GoString)
    (hroot : p ≠ ['/'])
    (hb : bucket_parts_from_filepath p = Except.ok (bucket, remainder)) :
    fs.files_for_path p
      = Except.ok (filesOf bucket (queryPrefix remainder)
          (fs.S3.ListObjectsV2 (queryOf bucket remainder)).1) := by
  unfold s3fs.files_for_path
  simp only [hroot, if_false, hb]
  rfl

theorem files_for_path_defined (fs : s3fs) (p : GoString) (h : '/' ∈ p) :
    ∃ files, fs.files_for_path p = Except.ok files ∧ (files.map Prod.fst).Nodup := by
  by_cases hroot : p = ['/']
  · subst hroot
    exact ⟨_, files_for_path_root fs, nodup_foldl_set _ _ [] (by simp)⟩
  · obtain ⟨first, second, rest, _, hb⟩ := bucket_parts_defined_of_mem p h
    refine ⟨_, files_for_path_nonroot fs p _ _ hroot hb, ?_⟩
    exact nodup_foldl_set _ _ _ (nodup_foldl_skip _ _ _ [] (by simp))

theorem lookup_filesRoot (buckets : List GoString) (s : GoString) :
    (filesRoot buckets).lookup s
      = if s ∈ buckets then some { name := s, isdir := true } else none := by
  unfold filesRoot
  rw [lookup_foldl_set]
  rfl

theorem lookup_filesOf (bucket pfx : GoString) (result : ListObjectsV2Output)
    (s : GoString) :
    (filesOf bucket pfx result).lookup s
      = if s ∈ result.CommonPrefixes then
          some { name := TrimSuffix (TrimPrefix s pfx) delimiter, bucket := bucket,
                 isdir := true }
        else if s ∈ result.Contents ∧ s ≠ pfx then
          some { name := TrimPrefix s pfx, bucket := bucket, key := s }
        else none := by
  unfold filesOf
  rw [lookup_foldl_set, lookup_foldl_skip]
  rfl

theorem nodup_filesOf (bucket pfx : GoString) (result : ListObjectsV2Output) :
    ((filesOf bucket pfx result).map Prod.fst).Nodup :=
  nodup_foldl_set _ _ _ (nodup_foldl_skip _ _ _ [] (by simp))

theorem nodup_filesRoot (buckets : List GoString) :
    ((filesRoot buckets).map Prod.fst).Nodup :=
  nodup_foldl_set _ _ [] (by simp)

theorem listing_eq_of_lookup_eq (m1 m2 : FileMap) (h1 : (m1.map Prod.fst).Nodup)
    (h2 : (m2.map Prod.fst).Nodup) (hl : ∀ s, m1.lookup s = m2.lookup s) :
    (sortStrings (m1.map Prod.fst)).map (fun fn => m1.lookup fn)
      = (sortStrings (m2.map Prod.fst)).map (fun fn => m2.lookup fn) := by
  have hkeys : (m1.map Prod.fst).Perm (m2.map Prod.fst) := by
    rw [List.perm_ext_iff_of_nodup h1 h2]
    intro a
    rw [mem_keys_iff_lookup, mem_keys_iff_lookup, hl]
  have hsorted : sortStrings (m1.map Prod.fst) = sortStrings (m2.map Prod.fst) :=
    strict_sorted_unique _ _
      (((sortStrings_perm _).trans hkeys).trans (sortStrings_perm _).symm)
      (sortStrings_strict _ h1) (sortStrings_strict _ h2)
  rw [hsorted]
  exact List.map_congr_left (fun a _ => hl a)

theorem queryPrefix_eq (remainder : GoString) :
    queryPrefix remainder = if remainder ≠ [] then remainder ++ ['/'] else [] := by
  unfold queryPrefix
  by_cases h : remainder = []
  · simp [h]
  · simp [h]

theorem Filelist_List_eq (fs : s3fs) (p : GoString) (files : FileMap)
    (hf : fs.files_for_path p = Except.ok files) :
    fs.Filelist { Method := "List", Filepath := p }
      = Except.ok (some ((sortStrings (files.map Prod.fst)).map (fun fn => files.lookup fn)),
          none) := by
  simp [s3fs.Filelist, hf]

/-! ## Listing: theorems -/

/-- C2. Listing content: for a path other than "/" that begins with "/",
with (bucket, remainder) its resolution and prefix = remainder + "/" when the
remainder is non-empty and "" otherwise, `files_for_path` depends on the store
only through the answer to the query (bucket, prefix, delimiter "/"), and when
no string is both a returned key and a returned common prefix the entries are
exactly: under each returned key k other than the prefix, one file entry with
bucket, key k and name k with the prefix trimmed; under each returned common
prefix q, one directory entry with empty key and name q with the prefix and
the trailing "/" trimmed.  The map holds one entry per distinct key.  Trimming
is pinned: a key prefix + rest has the name rest, a common prefix
prefix + d + "/" has the name d, a string that does not start with the prefix
keeps its front and one that does not end in "/" keeps its end. -/
theorem files_for_path_content (fs : s3fs) (p : GoString) (hroot : p ≠ ['/'])
    (habs : p.head? = some '/') :
    ∃ bucket remainder files,
      bucket_parts_from_filepath p = Except.ok (bucket, remainder) ∧
      fs.files_for_path p = Except.ok files ∧
      (files.map Prod.fst).Nodup ∧
      ∀ pfx : GoString, pfx = (if remainder ≠ [] then remainder ++ ['/'] else []) →
      ∀ input : ListObjectsV2Input,
        input = { Bucket := bucket, MaxKeys := 1000, Delimiter := ['/'], Prefix := pfx } →
        (∀ fs2 : s3fs, fs2.S3.ListObjectsV2 input = fs.S3.ListObjectsV2 input →
          fs2.files_for_path p = Except.ok files) ∧
        ((∀ k ∈ (fs.S3.ListObjectsV2 input).1.Contents,
            k ∉ (fs.S3.ListObjectsV2 input).1.CommonPrefixes) →
          (∀ (s : GoString) (e : s3File), (s, e) ∈ files ↔
            (s ∈ (fs.S3.ListObjectsV2 input).1.Contents ∧ s ≠ pfx ∧
              e = { name := TrimPrefix s pfx, isdir := false, bucket := bucket, key := s }) ∨
            (s ∈ (fs.S3.ListObjectsV2 input).1.CommonPrefixes ∧
              e = { name := TrimSuffix (TrimPrefix s pfx) ['/'], isdir := true,
                    bucket := bucket, key := [] })) ∧
          (∀ rest : GoString, pfx ++ rest ∈ (fs.S3.ListObjectsV2 input).1.Contents →
            rest ≠ [] →
            (pfx ++ rest, ({ name := rest, isdir := false, bucket := bucket,
                             key := pfx ++ rest } : s3File)) ∈ files) ∧
          (∀ d : GoString,
            pfx ++ (d ++ ['/']) ∈ (fs.S3.ListObjectsV2 input).1.CommonPrefixes →
            (pfx ++ (d ++ ['/']), ({ name := d, isdir := true, bucket := bucket,
                                     key := [] } : s3File)) ∈ files) ∧
          (∀ e : s3File, (pfx, e) ∈ files →
            pfx ∈ (fs.S3.ListObjectsV2 input).1.CommonPrefixes)) ∧
        (∀ rest : GoString, TrimPrefix (pfx ++ rest) pfx = rest) ∧
        (∀ s : GoString, ¬ pfx <+: s → TrimPrefix s pfx = s) ∧
        (∀ t : GoString, TrimSuffix (t ++ ['/']) ['/'] = t) ∧
        (∀ t : GoString, ¬ ['/'] <:+ t → TrimSuffix t ['/'] = t) := by
  obtain ⟨first, second, rest, _, hb⟩ := bucket_parts_defined_of_mem p (mem_of_head p habs)
  refine ⟨_, _, _, hb, files_for_path_nonroot fs p _ _ hroot hb, nodup_filesOf _ _ _, ?_⟩
  intro pfx hpfx input hinput
  rw [← queryPrefix_eq] at hpfx
  have hq : input = queryOf (TrimSpace second) (Join rest delimiter) := by
    rw [hinput, hpfx]; rfl
  subst hq
  subst hpfx
  refine ⟨?_, ?_, fun r => TrimPrefix_append _ r, fun s hs => TrimPrefix_of_not_prefix s _ hs,
    fun t => TrimSuffix_append t _, fun t ht => TrimSuffix_of_not_suffix t _ ht⟩
  · intro fs2 h2
    rw [files_for_path_nonroot fs2 p _ _ hroot hb, h2]
  · intro hdisj
    have hmem : ∀ (s : GoString) (e : s3File),
        (s, e) ∈ filesOf (TrimSpace second) (queryPrefix (Join rest delimiter))
            (fs.S3.ListObjectsV2 (queryOf (TrimSpace second) (Join rest delimiter))).1 ↔
          (s ∈ (fs.S3.ListObjectsV2
              (queryOf (TrimSpace second) (Join rest delimiter))).1.Contents ∧
            s ≠ queryPrefix (Join rest delimiter) ∧
            e = { name := TrimPrefix s (queryPrefix (Join rest delimiter)), isdir := false,
                  bucket := TrimSpace second, key := s }) ∨
          (s ∈ (fs.S3.ListObjectsV2
              (queryOf (TrimSpace second) (Join rest delimiter))).1.CommonPrefixes ∧
            e = { name := TrimSuffix (TrimPrefix s (queryPrefix (Join rest delimiter))) ['/'],
                  isdir := true, bucket := TrimSpace second, key := [] }) := by
      intro s e
      rw [mem_iff_lookup _ (nodup_filesOf _ _ _), lookup_filesOf]
      by_cases hP : s ∈ (fs.S3.ListObjectsV2
          (queryOf (TrimSpace second) (Join rest delimiter))).1.CommonPrefixes
      · have hK : s ∉ (fs.S3.ListObjectsV2
            (queryOf (TrimSpace second) (Join rest delimiter))).1.Contents :=
          fun hk => hdisj s hk hP
        simp only [hP, if_true, hK, false_and, false_or, true_and, Option.some.injEq]
        exact ⟨fun h => h.symm, fun h => h.symm⟩
      · simp only [hP, if_false, false_and, or_false]
        by_cases hK : s ∈ (fs.S3.ListObjectsV2
            (queryOf (TrimSpace second) (Join rest delimiter))).1.Contents ∧
            s ≠ queryPrefix (Join rest delimiter)
        · simp only [hK, and_self, if_true, Option.some.injEq, true_and, ne_eq,
            not_false_eq_true]
          exact ⟨fun h => h.symm, fun h => h.symm⟩
        · rw [if_neg hK]
          constructor
          · intro h; cases h
          · intro h; exact absurd ⟨h.1, h.2.1⟩ hK
    refine ⟨hmem, ?_, ?_, ?_⟩
    · intro r hr hne
      refine (hmem _ _).2 (Or.inl ⟨hr, ?_, ?_⟩)
      · intro h
        exact hne (List.append_right_eq_self.1 h)
      · rw [TrimPrefix_append]
    · intro d hd
      refine (hmem _ _).2 (Or.inr ⟨hd, ?_⟩)
      rw [TrimPrefix_append, TrimSuffix_append]
    · intro e he
      rcases (hmem _ _).1 he with h | h
      · exact absurd rfl h.2.1
      · exact h.1

/-- Witness of C2.  Objects 1, 2 and b/3 in bucket a: the listing of "/a" is
the files 1 and 2 and the directory b.  Objects d/, d/1, d/2 and d/b/3: the
listing of "/a/d" queries the prefix "d/" and is the files 1 and 2 under the
keys d/1 and d/2 and the directory b; the key d/ gives no entry. -/
theorem files_for_path_content_witness :
    (storeOf objsA).ListObjectsV2
        { Bucket := "a".toList, MaxKeys := 1000, Delimiter := ['/'], Prefix := [] }
      = ({ Contents := ["1".toList, "2".toList], CommonPrefixes := ["b/".toList] }, none) ∧
    s3fs.files_for_path { S3 := storeOf objsA } "/a".toList
      = Except.ok [("b/".toList, { name := "b".toList, isdir := true, bucket := "a".toList }),
          ("2".toList, { name := "2".toList, bucket := "a".toList, key := "2".toList }),
          ("1".toList, { name := "1".toList, bucket := "a".toList, key := "1".toList })] ∧
    (storeOf objsD).ListObjectsV2
        { Bucket := "a".toList, MaxKeys := 1000, Delimiter := ['/'], Prefix := "d/".toList }
      = ({ Contents := ["d/".toList, "d/1".toList, "d/2".toList],
           CommonPrefixes := ["d/b/".toList] }, none) ∧
    s3fs.files_for_path { S3 := storeOf objsD } "/a/d".toList
      = Except.ok
          [("d/b/".toList, { name := "b".toList, isdir := true, bucket := "a".toList }),
           ("d/2".toList, { name := "2".toList, bucket := "a".toList, key := "d/2".toList }),
           ("d/1".toList, { name := "1".toList, bucket := "a".toList, key := "d/1".toList })] ∧
    ∃ files,
      s3fs.files_for_path { S3 := storeOf objsD } "/a/d".toList = Except.ok files ∧
      (files.map Prod.fst).Nodup ∧
      ("d/1".toList, ({ name := "1".toList, isdir := false, bucket := "a".toList,
                        key := "d/1".toList } : s3File)) ∈ files ∧
      ("d/b/".toList, ({ name := "b".toList, isdir := true, bucket := "a".toList,
                         key := [] } : s3File)) ∈ files := by
  refine ⟨by decide, by decide, by decide, by decide, ?_⟩
  obtain ⟨bucket, remainder, files, h1, h2, h3, h4⟩ :=
    files_for_path_content { S3 := storeOf objsD } "/a/d".toList (by decide) (by decide)
  have hb : bucket_parts_from_filepath "/a/d".toList
      = Except.ok ("a".toList, "d".toList) := by decide
  rw [hb] at h1
  injection h1 with h1
  injection h1 with hbk hrem
  subst hbk
  subst hrem
  obtain ⟨_, hent, _⟩ := h4 "d/".toList (by decide)
    { Bucket := "a".toList, MaxKeys := 1000, Delimiter := ['/'], Prefix := "d/".toList } rfl
  obtain ⟨_, hfile, hdir, _⟩ := hent (by decide)
  exact ⟨files, h2, h3, hfile "1".toList (by decide) (by decide),
    hdir "b".toList (by decide)⟩

/-- C3, counterexample. With the file b.txt and the directory b in bucket a,
the listing of "/a" has b.txt before b, while the name b is less than b.txt. -/
theorem Filelist_List_not_in_name_order :
    (storeOf objsB).ListObjectsV2
        { Bucket := "a".toList, MaxKeys := 1000, Delimiter := ['/'], Prefix := [] }
      = ({ Contents := ["b.txt".toList], CommonPrefixes := ["b/".toList] }, none) ∧
    s3fs.Filelist { S3 := storeOf objsB } { Method := "List", Filepath := "/a".toList }
      = Except.ok (some
          [some { name := "b.txt".toList, bucket := "a".toList, key := "b.txt".toList },
           some { name := "b".toList, isdir := true, bucket := "a".toList }], none) ∧
    strLess "b".toList "b.txt".toList = true := by
  decide

/-- C3, amended. For every path that contains "/" and every store answer, the
List listing is the entries of the file map taken in strictly ascending order
of the map keys (the full object key or common prefix; the bucket name at the
root), each key once; and it is the same listing when the store returns the
same buckets, keys and common prefixes in another order. -/
theorem Filelist_List_in_key_order (fs : s3fs) (p : GoString) (h : '/' ∈ p) :
    ∃ (files : FileMap) (keys : List GoString),
      fs.files_for_path p = Except.ok files ∧
      fs.Filelist { Method := "List", Filepath := p }
        = Except.ok (some (keys.map (fun k => files.lookup k)), none) ∧
      keys.Perm (files.map Prod.fst) ∧
      keys.Pairwise (fun a b => strLess a b = true) ∧
      (∀ k ∈ keys, ∃ e, files.lookup k = some e) ∧
      ∀ fs2 : s3fs,
        fs2.S3.ListBuckets.1.Buckets.Perm fs.S3.ListBuckets.1.Buckets →
        (∀ i, (fs2.S3.ListObjectsV2 i).1.Contents.Perm (fs.S3.ListObjectsV2 i).1.Contents ∧
          (fs2.S3.ListObjectsV2 i).1.CommonPrefixes.Perm
            (fs.S3.ListObjectsV2 i).1.CommonPrefixes) →
        fs2.Filelist { Method := "List", Filepath := p }
          = fs.Filelist { Method := "List", Filepath := p } := by
  obtain ⟨files, hf, hnd⟩ := files_for_path_defined fs p h
  refine ⟨files, sortStrings (files.map Prod.fst), hf, Filelist_List_eq fs p files hf,
    sortStrings_perm _, sortStrings_strict _ hnd, ?_, ?_⟩
  · intro k hk
    exact (mem_keys_iff_lookup files k).1 ((sortStrings_perm _).mem_iff.1 hk)
  · intro fs2 hB hL
    by_cases hroot : p = ['/']
    · subst hroot
      rw [Filelist_List_eq fs2 _ _ (files_for_path_root fs2),
        Filelist_List_eq fs _ _ (files_for_path_root fs)]
      rw [listing_eq_of_lookup_eq _ _ (nodup_filesRoot _) (nodup_filesRoot _)]
      intro s
      rw [lookup_filesRoot, lookup_filesRoot]
      simp only [hB.mem_iff]
    · obtain ⟨first, second, rest, _, hb⟩ := bucket_parts_defined_of_mem p h
      rw [Filelist_List_eq fs2 _ _ (files_for_path_nonroot fs2 p _ _ hroot hb),
        Filelist_List_eq fs _ _ (files_for_path_nonroot fs p _ _ hroot hb)]
      rw [listing_eq_of_lookup_eq _ _ (nodup_filesOf _ _ _) (nodup_filesOf _ _ _)]
      intro s
      rw [lookup_filesOf, lookup_filesOf]
      simp only [(hL (queryOf (TrimSpace second) (Join rest delimiter))).1.mem_iff,
        (hL (queryOf (TrimSpace second) (Join rest delimiter))).2.mem_iff]

/-- Witness of the amended C3 at "/a" over the objects b.txt and b/3. -/
theorem Filelist_List_in_key_order_witness :
    ∃ (files : FileMap) (keys : List GoString),
      s3fs.files_for_path { S3 := storeOf objsB } "/a".toList = Except.ok files ∧
      s3fs.Filelist { S3 := storeOf objsB } { Method := "List", Filepath := "/a".toList }
        = Except.ok (some (keys.map (fun k => files.lookup k)), none) ∧
      keys.Perm (files.map Prod.fst) ∧
      keys.Pairwise (fun a b => strLess a b = true) := by
  obtain ⟨files, keys, h1, h2, h3, h4, _⟩ :=
    Filelist_List_in_key_order { S3 := storeOf objsB } "/a".toList (by decide)
  exact ⟨files, keys, h1, h2, h3, h4⟩

/-- C4. Stat classification: for a path that begins with "/", with
(bucket, remainder) its resolution, (1) when the probe of (bucket, remainder)
succeeds, Stat returns a one-element listing holding a file entry, whatever
`files_for_path` yields; (2) when the probe fails and `files_for_path` yields
a child, a one-element listing holding a directory entry with empty key, and
no error; (3) when the probe fails and `files_for_path` yields nothing, no
listing and the probe's error. -/
theorem Filelist_Stat_classification (fs : s3fs) (p : GoString)
    (habs : p.head? = some '/') :
    ∃ (bucket remainder : GoString) (files : FileMap),
      bucket_parts_from_filepath p = Except.ok (bucket, remainder) ∧
      fs.files_for_path p = Except.ok files ∧
      (fs.S3.HeadObject { Bucket := bucket, Key := remainder } = none →
        fs.Filelist { Method := "Stat", Filepath := p }
          = Except.ok (some [some { name := p, isdir := false, key := p }], none)) ∧
      (∀ err, fs.S3.HeadObject { Bucket := bucket, Key := remainder } = some err →
        files ≠ [] →
        fs.Filelist { Method := "Stat", Filepath := p }
          = Except.ok (some [some { name := p, isdir := true, key := [] }], none)) ∧
      (∀ err, fs.S3.HeadObject { Bucket := bucket, Key := remainder } = some err →
        files = [] →
        fs.Filelist { Method := "Stat", Filepath := p } = Except.ok (none, some err)) := by
  have hmem := mem_of_head p habs
  obtain ⟨first, second, rest, _, hb⟩ := bucket_parts_defined_of_mem p hmem
  obtain ⟨files, hf, _⟩ := files_for_path_defined fs p hmem
  refine ⟨_, _, files, hb, hf, ?_, ?_, ?_⟩
  · intro hprobe
    simp [s3fs.Filelist, s3fs.file_for_path, hb, hprobe]
  · intro err hprobe hne
    have hlen : files.length > 0 := List.length_pos.2 hne
    simp [s3fs.Filelist, s3fs.file_for_path, hb, hprobe, hf, hlen]
  · intro err hprobe he
    subst he
    simp [s3fs.Filelist, s3fs.file_for_path, hb, hprobe, hf]

/-- Witness of C4 over the objects b.txt and b/3 of bucket a, at the path
"/a/b", where the probe fails and the listing has the child 3. -/
theorem Filelist_Stat_classification_witness :
    s3fs.Filelist { S3 := storeOf objsB } { Method := "Stat", Filepath := "/a/b".toList }
      = Except.ok (some [some { name := "/a/b".toList, isdir := true }], none) ∧
    ∃ (bucket remainder : GoString) (files : FileMap),
      bucket_parts_from_filepath "/a/b".toList = Except.ok (bucket, remainder) ∧
      s3fs.files_for_path { S3 := storeOf objsB } "/a/b".toList = Except.ok files := by
  refine ⟨by decide, ?_⟩
  obtain ⟨bucket, remainder, files, h1, h2, _⟩ :=
    Filelist_Stat_classification { S3 := storeOf objsB } "/a/b".toList (by decide)
  exact ⟨bucket, remainder, files, h1, h2⟩

/-- C9, the code at the failing input. For the root path `fetch` returns a nil
entry and a nil error, and `Fileread` then reads the symlink field of the nil
entry: a nil dereference, on every store. -/
theorem Fileread_root_nil_dereference (fs : s3fs) (method : String) :
    fs.fetch ['/'] = Except.ok (none, none) ∧
    fs.Fileread { Method := method, Filepath := ['/'] }
      = Except.error Panic.nilDereference := by
  simp [s3fs.fetch, s3fs.Fileread]

/-- C1, the code at the failing input. After a write to "/a/k" has committed
its content at (bucket a, key k), the entry `file_for_path` returns for
"/a/k" carries the empty bucket and the key "/a/k", so `fetch` asks the store
for the object ("", "/a/k"), which does not exist; the body is nil and
`Fileread` ends in a nil dereference instead of returning the content. -/
theorem Fileread_after_write_misses_object :
    s3fs.Filewrite { S3 := storeOf [] } { Method := "Put", Filepath := "/a/k".toList }
      = Except.ok { name := "/a/k".toList, isdir := false, key := "k".toList,
                    bucket := "a".toList } ∧
    bucket_parts_from_filepath "/a/k".toList = Except.ok ("a".toList, "k".toList) ∧
    (storeOf objsK).GetObject { Bucket := "a".toList, Key := "k".toList }
      = ({ Body := some [104, 105] }, none) ∧
    s3fs.file_for_path { S3 := storeOf objsK } "/a/k".toList
      = Except.ok (some { name := "/a/k".toList, isdir := false, key := "/a/k".toList,
                          bucket := [] }, none) ∧
    (storeOf objsK).GetObject { Bucket := [], Key := "/a/k".toList }
      = ({ Body := none }, some notFound) ∧
    s3fs.Fileread { S3 := storeOf objsK } { Method := "Get", Filepath := "/a/k".toList }
      = Except.error Panic.nilDereference := by
  decide

end S3tp
